import Mathlib

/-!
# Response transformation of the single-backend reverse proxy

A shallow embedding of `reverseproxy.go`: the header inspection (`stringInSlice`,
`isGzipped`), the rule engine (`rewriteBody`) and the response hook returned by
`modifyResponse`.

The program calls three libraries that are not part of the repository.  They are taken as
parameters of the embedding:

* `regexp` (pattern compilation, `Match`, `ReplaceAll`) is a `RegexpLib`;
* `compress/gzip` (reader and writer) is a `GzipLib`;
* `net/http` headers are modelled after `net/textproto`: `Header.Set` stores the single
  value under the canonical form of the key.

The configuration read through `viper` is a `Config`.  `viper.GetStringMap` returns a Go map,
and `range` over a Go map visits the entries in an order the language leaves unspecified, so
`rewriteBody` takes the list of entries in the order in which the loop visits them.

A panic (`regexp.MustCompile` on a pattern that does not parse) is the result `none`.
The calls of `log` and `fmt.Println` write diagnostics only and are left out.
-/

namespace ReverseProxy

/-- A Go byte slice. -/
abbrev Bytes := List UInt8

/-- The conversion of a Go string to a byte slice: the UTF-8 bytes of the string. -/
def stringBytes (s : String) : Bytes :=
  s.toList.flatMap String.utf8EncodeChar

/-- The decimal rendering `strconv.Itoa` of a slice length. -/
def Itoa (n : Nat) : String :=
  toString n

/-! ## Headers -/

/-- A Go header map `map[string][]string`: a key is absent or bound to a list of values. -/
abbrev HeaderMap := String → Option (List String)

/-- The header field bytes accepted by `net/textproto`: letters, digits and the
punctuation of an RFC 7230 token. -/
def validHeaderFieldByte (c : Char) : Bool :=
  c.isAlphanum || "!#$%&*+-.^_|~".toList.contains c || c == Char.ofNat 39 || c == Char.ofNat 96

/-- The rewriting loop of `canonicalMIMEHeaderKey`: upper case for the first letter and for
a letter after a hyphen, lower case elsewhere. -/
def canonLoop : Bool → List Char → List Char
  | _, [] => []
  | upper, c :: cs =>
    let d := if upper && c.isLower then c.toUpper
             else if !upper && c.isUpper then c.toLower
             else c
    d :: canonLoop (d == '-') cs

/-- The function `textproto.CanonicalMIMEHeaderKey`: a key holding a byte that is not a
valid header field byte is returned as it is, any other key is canonicalised. -/
def CanonicalMIMEHeaderKey (s : String) : String :=
  if s.toList.all validHeaderFieldByte then String.mk (canonLoop true s.toList) else s

/-- The method `http.Header.Set`: the entry under the canonical key becomes the single
value. -/
def Header.Set (h : HeaderMap) (key value : String) : HeaderMap :=
  fun k => if k = CanonicalMIMEHeaderKey key then some [value] else h k

/-- The function `stringInSlice` of the source. -/
def stringInSlice (a : String) : List String → Bool
  | [] => false
  | b :: list => if b == a then true else stringInSlice a list

/-- The function `isGzipped` of the source: a lookup of the literal key
`Content-Encoding` followed by `stringInSlice`. -/
def isGzipped (header : HeaderMap) : Bool :=
  match header "Content-Encoding" with
  | some headerEncoding => if stringInSlice "gzip" headerEncoding then true else false
  | none => false

/-! ## Libraries taken as parameters -/

/-- The part of package `regexp` the program uses.  `Compile` is `none` when the pattern
does not parse, which is when `regexp.MustCompile` panics. -/
structure RegexpLib where
  /-- A compiled expression. -/
  Regexp : Type
  /-- Pattern compilation. -/
  Compile : String → Option Regexp
  /-- Whether the expression has a match in the bytes. -/
  Match : Regexp → Bytes → Bool
  /-- All matches in the bytes (second argument) replaced by the template (third). -/
  ReplaceAll : Regexp → Bytes → Bytes → Bytes

/-- The part of package `compress/gzip` the program uses. -/
structure GzipLib where
  /-- A gzip reader positioned after a member header. -/
  Reader : Type
  /-- The constructor `gzip.NewReader`: reads the member header, `none` when that fails. -/
  NewReader : Bytes → Option Reader
  /-- Reading a reader to its end: the bytes delivered, and whether the read ended in an
  error instead of the end of the stream. -/
  ReadAll : Reader → Bytes × Bool
  /-- What a fresh buffer holds after `gzip.NewWriter`, one `Write` and `Close`. -/
  Compress : Bytes → Bytes

/-! ## Configuration -/

/-- One entry of `pattern.items`: the values under `source` and `target` as `fmt.Sprint`
prints them, absent when the key is missing or the entry is not a map. -/
structure Item where
  source : Option String
  target : Option String
deriving DecidableEq, Repr

/-- The rendering `fmt.Sprint` of a configuration value: a missing value prints as
`<nil>`. -/
def sprint : Option String → String
  | some s => s
  | none => "<nil>"

/-- The configuration keys read by the response hook. -/
structure Config where
  /-- Key `header.response.name`. -/
  responseName : String
  /-- Key `header.response.value`. -/
  responseValue : String
  /-- Key `pattern.items`, in the order of declaration in the configuration file. -/
  items : List (String × Item)

/-! ## The rule engine -/

/-- The loop of `rewriteBody` over the entries in the order `range` visits them, carrying
the current bytes and the `changed` flag. -/
def rewriteLoop (re : RegexpLib) : List (String × Item) → Bytes → Bool → Option (Bytes × Bool)
  | [], b, changed => some (b, changed)
  | (_, v) :: rest, b, changed =>
    match re.Compile (sprint v.source) with
    | none => none
    | some r =>
      if re.Match r b then
        rewriteLoop re rest (re.ReplaceAll r b (stringBytes (sprint v.target))) true
      else
        rewriteLoop re rest b changed

/-- The function `rewriteBody` of the source; `order` lists the entries of `pattern.items`
in the order in which the `range` loop visits them. -/
def rewriteBody (re : RegexpLib) (order : List (String × Item)) (b : Bytes) :
    Option (Bytes × Bool) :=
  rewriteLoop re order b false

/-- Replace-all of one rule on the current bytes, as the specification words it: the
pattern is compiled and every match is replaced, whether or not there is one. -/
def applyRule (re : RegexpLib) (acc : Bytes) (p : String × Item) : Bytes :=
  match re.Compile (sprint p.2.source) with
  | some r => re.ReplaceAll r acc (stringBytes (sprint p.2.target))
  | none => acc

/-- The left fold of replace-all over a list of rules, as the specification words it. -/
def foldRules (re : RegexpLib) (rules : List (String × Item)) (b : Bytes) : Bytes :=
  rules.foldl (applyRule re) b

/-! ## The response hook -/

/-- The fields of `http.Response` the hook reads and writes.  `Body` is the byte sequence
the body reader delivers. -/
structure Response where
  Header : HeaderMap
  Body : Bytes
  ContentLength : Int

/-- The function `zippedReadAll` of the source: the bytes and whether the error is
non-nil. -/
def zippedReadAll (gz : GzipLib) (r : Bytes) : Bytes × Bool :=
  match gz.NewReader r with
  | none => ([], true)
  | some reader => gz.ReadAll reader

/-- What a call of the hook leaves behind when it returns: the response and the returned
error (`none` is `nil`). -/
structure HookResult where
  resp : Response
  err : Option String

/-- The hook returned by `modifyResponse` of the source. -/
def modifyResponse (gz : GzipLib) (re : RegexpLib) (cfg : Config)
    (order : List (String × Item)) (resp : Response) : Option HookResult :=
  let gzipped := isGzipped resp.Header
  let b := if gzipped then (zippedReadAll gz resp.Body).1 else resp.Body
  let header := Header.Set resp.Header cfg.responseName cfg.responseValue
  match rewriteBody re order b with
  | none => none
  | some (d, changed) =>
    let b := if changed then d else b
    let b := if gzipped then gz.Compress b else b
    some
      { resp :=
          { Header := Header.Set header "Content-Length" (Itoa b.length)
            Body := b
            ContentLength := (b.length : Int) }
        err := none }

/-- The bytes the hook hands to `rewriteBody`: the first assignment of `b` in the hook. -/
def decodedBody (gz : GzipLib) (resp : Response) : Bytes :=
  if isGzipped resp.Header then (zippedReadAll gz resp.Body).1 else resp.Body

/-- The bytes the hook installs as the body, from the result of `rewriteBody`: the last two
assignments of `b` in the hook. -/
def finalBody (gz : GzipLib) (resp : Response) (d : Bytes) (changed : Bool) : Bytes :=
  let b := if changed then d else decodedBody gz resp
  if isGzipped resp.Header then gz.Compress b else b

/-! ## A literal fragment of `regexp`

Patterns made of ordinary characters only, with a template free of `$`.  On that fragment
the library searches for the pattern bytes and replaces the occurrences from left to
right.  Every other pattern is rejected here; among those, `(` is also rejected by the
library (missing closing parenthesis). -/

/-- Whether the bytes `b` start with the bytes `pat`. -/
def startsWith : Bytes → Bytes → Bool
  | [], _ => true
  | _ :: _, [] => false
  | p :: ps, c :: cs => p == c && startsWith ps cs

/-- Whether `pat` occurs in the bytes. -/
def litMatch (pat : Bytes) : Bytes → Bool
  | [] => startsWith pat []
  | c :: cs => startsWith pat (c :: cs) || litMatch pat cs

/-- Left-to-right replacement of the occurrences of `pat` by `repl`; the counter is the
number of bytes of the current occurrence still to be skipped. -/
def litReplace (pat repl : Bytes) : Nat → Bytes → Bytes
  | _, [] => []
  | skip + 1, _ :: cs => litReplace pat repl skip cs
  | 0, c :: cs =>
    if startsWith pat (c :: cs) then repl ++ litReplace pat repl (pat.length - 1) cs
    else c :: litReplace pat repl 0 cs

/-- The characters with a meaning in the pattern syntax. -/
def isMetaChar (c : Char) : Bool :=
  "\\.+*?()|[]^$".toList.contains c || c == Char.ofNat 123 || c == Char.ofNat 125

/-- The literal fragment of `regexp`. -/
def litRegexp : RegexpLib where
  Regexp := Bytes
  Compile := fun s =>
    if s.toList.isEmpty || s.toList.any isMetaChar then none else some (stringBytes s)
  Match := litMatch
  ReplaceAll := fun pat b repl => litReplace pat repl 0 b

/-! ## A stored-block fragment of `compress/gzip`

Gzip members without optional header fields whose DEFLATE data consists of stored blocks,
one member per stream.  The writer emits the ten header bytes of `gzip.NewWriter`, the
data in stored blocks closed by the empty final stored block, and the trailer (CRC-32 and
length, little endian).  For the empty input the writer of the library emits the same
framing (header, one empty final stored block, zero trailer); for other inputs it picks
Huffman-coded blocks, which decode to the same bytes.  The reader reports an error on
everything outside the fragment. -/

/-- Two bytes, little endian. -/
def le16 (n : Nat) : Bytes :=
  [UInt8.ofNat (n % 256), UInt8.ofNat (n / 256 % 256)]

/-- Four bytes, little endian. -/
def le32 (n : Nat) : Bytes :=
  [UInt8.ofNat (n % 256), UInt8.ofNat (n / 256 % 256), UInt8.ofNat (n / 65536 % 256),
    UInt8.ofNat (n / 16777216 % 256)]

/-- One bit step of the reflected CRC-32 (IEEE polynomial). -/
def crc32Bit (c : Nat) : Nat :=
  if c % 2 = 1 then (c >>> 1) ^^^ 0xEDB88320 else c >>> 1

/-- One byte step of the CRC-32. -/
def crc32Update (crc : Nat) (b : UInt8) : Nat :=
  crc32Bit^[8] (crc ^^^ b.toNat)

/-- The checksum `crc32.ChecksumIEEE`. -/
def crc32 (bs : Bytes) : Nat :=
  (bs.foldl crc32Update 0xFFFFFFFF) ^^^ 0xFFFFFFFF

/-- The bytes in stored blocks of at most 65535 bytes, closed by the empty final block. -/
def storedBlocks : Nat → Bytes → Bytes
  | 0, _ => [0x01, 0x00, 0x00, 0xff, 0xff]
  | fuel + 1, b =>
    if b.isEmpty then [0x01, 0x00, 0x00, 0xff, 0xff]
    else
      let k := min b.length 65535
      [0x00] ++ le16 k ++ le16 (65535 - k) ++ b.take k ++ storedBlocks fuel (b.drop k)

/-- The header bytes written by `gzip.NewWriter`: magic, deflate, no flags, no
modification time, no extra flags, unknown operating system. -/
def gzipHeader : Bytes :=
  [0x1f, 0x8b, 0x08, 0x00, 0x00, 0x00, 0x00, 0x00, 0x00, 0xff]

/-- The gzip stream of the fragment for the given bytes. -/
def storedCompress (b : Bytes) : Bytes :=
  gzipHeader ++ storedBlocks b.length b ++ le32 (crc32 b) ++ le32 (b.length % 4294967296)

/-- The member header check of the fragment: ten bytes, magic `1f 8b`, method 8, flags 0.
The result is the rest of the stream. -/
def storedNewReader : Bytes → Option Bytes
  | id1 :: id2 :: cm :: flg :: _ :: _ :: _ :: _ :: _ :: _ :: rest =>
    if id1 = 0x1f ∧ id2 = 0x8b ∧ cm = 0x08 ∧ flg = 0x00 then some rest else none
  | _ => none

/-- Decoding of stored blocks: the bytes decoded so far and, when the final block was
reached, the rest of the stream. -/
def inflateStored : Nat → Bytes → Bytes → Bytes × Option Bytes
  | fuel + 1, hdr :: l0 :: l1 :: n0 :: n1 :: rest, acc =>
    let len := l0.toNat + 256 * l1.toNat
    let nlen := n0.toNat + 256 * n1.toNat
    if hdr.toNat / 2 % 4 ≠ 0 ∨ len + nlen ≠ 65535 then (acc, none)
    else if rest.length < len then (acc ++ rest, none)
    else if hdr.toNat % 2 = 1 then (acc ++ rest.take len, some (rest.drop len))
    else inflateStored fuel (rest.drop len) (acc ++ rest.take len)
  | _, _, acc => (acc, none)

/-- Reading a member of the fragment to its end: the decoded bytes, and an error when the
blocks are broken or the trailer does not carry the checksum and length of the bytes. -/
def storedReadAll (r : Bytes) : Bytes × Bool :=
  match inflateStored (r.length + 1) r [] with
  | (out, none) => (out, true)
  | (out, some rest) =>
    if rest = le32 (crc32 out) ++ le32 (out.length % 4294967296) then (out, false)
    else (out, true)

/-- The stored-block fragment of `compress/gzip`. -/
def storedGzip : GzipLib where
  Reader := Bytes
  NewReader := storedNewReader
  ReadAll := storedReadAll
  Compress := storedCompress

/-! ## Example data -/

/-- A configuration with the trace header `X-Proxy: on` and no rules. -/
def exampleConfig : Config :=
  { responseName := "X-Proxy", responseValue := "on", items := [] }

/-- A response that is not flagged as gzip, with body `hi`. -/
def plainResponse : Response :=
  { Header := fun k => if k = "Content-Type" then some ["text/plain"] else none
    Body := stringBytes "hi"
    ContentLength := 2 }

/-- What the hook leaves of `plainResponse` under `exampleConfig` without rules. -/
def plainResult : HookResult :=
  { resp :=
      { Header := Header.Set (Header.Set plainResponse.Header "X-Proxy" "on")
          "Content-Length" "2"
        Body := stringBytes "hi"
        ContentLength := 2 }
    err := none }

/-- The rule `a` to `b`, declared first. -/
def ruleAB : String × Item :=
  ("rule1", { source := some "a", target := some "b" })

/-- The rule `b` to `c`, declared second. -/
def ruleBC : String × Item :=
  ("rule2", { source := some "b", target := some "c" })

/-- A configuration that declares rule1 before rule2. -/
def twoRuleConfig : Config :=
  { responseName := "X-Proxy", responseValue := "on", items := [ruleAB, ruleBC] }

/-- A rule whose pattern does not parse: an opening parenthesis without its closing one. -/
def ruleBroken : String × Item :=
  ("broken", { source := some "(", target := some "x" })

/-- A configuration whose trace header is named like the length header. -/
def lengthNamedConfig : Config :=
  { responseName := "Content-Length", responseValue := "tagged", items := [] }

/-- A configuration whose trace header is named like the encoding header. -/
def encodingNamedConfig : Config :=
  { responseName := "Content-Encoding", responseValue := "gzip", items := [] }

/-- A response flagged as gzip whose body is a gzip stream of `hi`. -/
def gzipResponse : Response :=
  { Header := fun k => if k = "Content-Encoding" then some ["gzip"] else none
    Body := storedCompress (stringBytes "hi")
    ContentLength := 25 }

/-- A response flagged as gzip whose body is not a gzip stream. -/
def brokenGzipResponse : Response :=
  { Header := fun k => if k = "Content-Encoding" then some ["gzip"] else none
    Body := stringBytes "not gzip data"
    ContentLength := 13 }

/-! ## Header inspection -/

theorem stringInSlice_iff (a : String) (list : List String) :
    stringInSlice a list = true ↔ a ∈ list := by
  induction list with
  | nil => simp [stringInSlice]
  | cons b rest ih =>
    by_cases hb : b = a
    · simp [stringInSlice, hb]
    · have hne : ¬ a = b := fun e => hb e.symm
      simp [stringInSlice, hb, hne, ih]

theorem canonical_content_length :
    CanonicalMIMEHeaderKey "Content-Length" = "Content-Length" := by
  decide

theorem canonical_content_encoding :
    CanonicalMIMEHeaderKey "Content-Encoding" = "Content-Encoding" := by
  decide

/-- C5: `isGzipped` holds exactly when the map binds the key `Content-Encoding` to a list
with an element equal to `gzip`; it is false on a map without the key, on the encodings
`deflate` and `br`, and on the differently cased `GZIP`. -/
theorem isGzipped_iff_gzip_listed (h : HeaderMap) :
    (isGzipped h = true ↔ ∃ l, h "Content-Encoding" = some l ∧ "gzip" ∈ l) ∧
    isGzipped (fun _ => none) = false ∧
    isGzipped (fun k => if k = "Content-Encoding" then some ["deflate", "br"] else none)
      = false ∧
    isGzipped (fun k => if k = "Content-Encoding" then some ["GZIP"] else none) = false := by
  refine ⟨?_, rfl, by decide, by decide⟩
  unfold isGzipped
  cases hk : h "Content-Encoding" with
  | none => simp
  | some l =>
    by_cases hl : stringInSlice "gzip" l = true
    · simp [hl, (stringInSlice_iff "gzip" l).1 hl]
    · have hnot : ¬ "gzip" ∈ l := fun hm => hl ((stringInSlice_iff "gzip" l).2 hm)
      simp [hl, hnot]

/-! ## The hook, unfolded -/

theorem rewriteLoop_some (re : RegexpLib) (order : List (String × Item))
    (hc : ∀ p ∈ order, (re.Compile (sprint p.2.source)).isSome = true) (b : Bytes)
    (changed : Bool) : ∃ out, rewriteLoop re order b changed = some out := by
  induction order generalizing b changed with
  | nil => exact ⟨_, rfl⟩
  | cons p rest ih =>
    obtain ⟨k, v⟩ := p
    have hp := hc (k, v) (List.mem_cons_self _ _)
    have hrest : ∀ q ∈ rest, (re.Compile (sprint q.2.source)).isSome = true :=
      fun q hq => hc q (List.mem_cons_of_mem _ hq)
    obtain ⟨r, hr⟩ := Option.isSome_iff_exists.1 hp
    simp only [rewriteLoop]
    simp only [] at hr
    rw [hr]
    by_cases hm : re.Match r b = true
    · simpa [hm] using ih hrest _ true
    · simpa [hm] using ih hrest b changed

theorem rewriteLoop_none (re : RegexpLib) (order : List (String × Item))
    (hc : ∃ p ∈ order, re.Compile (sprint p.2.source) = none) (b : Bytes)
    (changed : Bool) : rewriteLoop re order b changed = none := by
  induction order generalizing b changed with
  | nil => simp at hc
  | cons p rest ih =>
    obtain ⟨k, v⟩ := p
    simp only [rewriteLoop]
    cases hr : re.Compile (sprint v.source) with
    | none => rfl
    | some r =>
      have hrest : ∃ q ∈ rest, re.Compile (sprint q.2.source) = none := by
        obtain ⟨q, hq, hqn⟩ := hc
        rcases List.mem_cons.1 hq with rfl | hq
        · simp [hr] at hqn
        · exact ⟨q, hq, hqn⟩
      by_cases hm : re.Match r b = true
      · simpa [hm] using ih hrest _ true
      · simpa [hm] using ih hrest b changed

theorem modifyResponse_of_rewrite (gz : GzipLib) (re : RegexpLib) (cfg : Config)
    (order : List (String × Item)) (resp : Response) (d : Bytes) (changed : Bool)
    (h : rewriteBody re order (decodedBody gz resp) = some (d, changed)) :
    modifyResponse gz re cfg order resp = some
      { resp :=
          { Header := Header.Set (Header.Set resp.Header cfg.responseName cfg.responseValue)
              "Content-Length" (Itoa (finalBody gz resp d changed).length)
            Body := finalBody gz resp d changed
            ContentLength := ((finalBody gz resp d changed).length : Int) }
        err := none } := by
  unfold decodedBody at h
  simp only [modifyResponse, h]
  rfl

theorem modifyResponse_some_inv (gz : GzipLib) (re : RegexpLib) (cfg : Config)
    (order : List (String × Item)) (resp : Response) (r : HookResult)
    (h : modifyResponse gz re cfg order resp = some r) :
    ∃ d changed, rewriteBody re order (decodedBody gz resp) = some (d, changed) ∧
      r = { resp :=
              { Header := Header.Set
                  (Header.Set resp.Header cfg.responseName cfg.responseValue)
                  "Content-Length" (Itoa (finalBody gz resp d changed).length)
                Body := finalBody gz resp d changed
                ContentLength := ((finalBody gz resp d changed).length : Int) }
            err := none } := by
  cases hrw : rewriteBody re order (decodedBody gz resp) with
  | none =>
    unfold decodedBody at hrw
    simp [modifyResponse, hrw] at h
  | some out =>
    obtain ⟨d, changed⟩ := out
    refine ⟨d, changed, rfl, ?_⟩
    rw [modifyResponse_of_rewrite gz re cfg order resp d changed hrw] at h
    exact (Option.some.inj h).symm

/-! ## Framing length -/

/-- C1: whenever the hook returns, the `ContentLength` field and the `Content-Length`
header both carry the byte count of the body the hook installed; and the hook does return
for every response when the patterns of the rule set compile. -/
theorem modifyResponse_length_consistent (gz : GzipLib) (re : RegexpLib) (cfg : Config)
    (order : List (String × Item)) (resp : Response) :
    ((∀ p ∈ order, (re.Compile (sprint p.2.source)).isSome = true) →
      (modifyResponse gz re cfg order resp).isSome = true) ∧
    ∀ r, modifyResponse gz re cfg order resp = some r →
      r.resp.ContentLength = (r.resp.Body.length : Int) ∧
      r.resp.Header "Content-Length" = some [Itoa r.resp.Body.length] := by
  constructor
  · intro hc
    obtain ⟨out, hout⟩ := rewriteLoop_some re order hc (decodedBody gz resp) false
    obtain ⟨d, changed⟩ := out
    rw [modifyResponse_of_rewrite gz re cfg order resp d changed hout]
    rfl
  · intro r hr
    obtain ⟨d, changed, _, rfl⟩ := modifyResponse_some_inv gz re cfg order resp r hr
    refine ⟨rfl, ?_⟩
    simp [Header.Set, canonical_content_length]

theorem modifyResponse_length_consistent_witness :
    (modifyResponse storedGzip litRegexp exampleConfig [] plainResponse).isSome = true ∧
    modifyResponse storedGzip litRegexp exampleConfig [] plainResponse = some plainResult ∧
    plainResult.resp.ContentLength = (plainResult.resp.Body.length : Int) ∧
    plainResult.resp.Header "Content-Length" = some [Itoa plainResult.resp.Body.length] :=
  ⟨(modifyResponse_length_consistent storedGzip litRegexp exampleConfig [] plainResponse).1
      (by simp),
    rfl,
    (modifyResponse_length_consistent storedGzip litRegexp exampleConfig [] plainResponse).2
      plainResult rfl⟩

/-! ## Patterns that do not compile -/

/-- C10, as stated, fails: with a rule whose pattern is `(` the hook does not return, it
panics in `regexp.MustCompile`. -/
theorem modifyResponse_panics_on_broken_pattern :
    litRegexp.Compile (sprint ruleBroken.2.source) = none ∧
    modifyResponse storedGzip litRegexp exampleConfig [ruleBroken] plainResponse = none :=
  ⟨rfl, rfl⟩

/-- C10, amended: the hook completes and returns the nil error for every response when
every pattern of the rule set compiles, and it panics, for every response, when some
pattern of the rule set does not compile. -/
theorem modifyResponse_returns_nil_or_panics (gz : GzipLib) (re : RegexpLib) (cfg : Config)
    (order : List (String × Item)) (resp : Response) :
    ((∀ p ∈ order, (re.Compile (sprint p.2.source)).isSome = true) →
      ∃ r, modifyResponse gz re cfg order resp = some { resp := r, err := none }) ∧
    ((∃ p ∈ order, re.Compile (sprint p.2.source) = none) →
      modifyResponse gz re cfg order resp = none) := by
  constructor
  · intro hc
    obtain ⟨out, hout⟩ := rewriteLoop_some re order hc (decodedBody gz resp) false
    obtain ⟨d, changed⟩ := out
    exact ⟨_, modifyResponse_of_rewrite gz re cfg order resp d changed hout⟩
  · intro hc
    have hnone := rewriteLoop_none re order hc (decodedBody gz resp) false
    unfold decodedBody at hnone
    simp [modifyResponse, rewriteBody, hnone]

theorem modifyResponse_returns_nil_or_panics_witness :
    (∃ r, modifyResponse storedGzip litRegexp exampleConfig [ruleAB, ruleBC] plainResponse
      = some { resp := r, err := none }) ∧
    modifyResponse storedGzip litRegexp exampleConfig [ruleAB, ruleBroken] plainResponse
      = none :=
  ⟨(modifyResponse_returns_nil_or_panics storedGzip litRegexp exampleConfig [ruleAB, ruleBC]
      plainResponse).1 (by decide),
    (modifyResponse_returns_nil_or_panics storedGzip litRegexp exampleConfig
      [ruleAB, ruleBroken] plainResponse).2 ⟨ruleBroken, by simp, rfl⟩⟩

/-! ## The rule engine: the flag -/

theorem rewriteLoop_flag_true (re : RegexpLib) (order : List (String × Item)) (b : Bytes)
    (out : Bytes) (ch : Bool) (h : rewriteLoop re order b true = some (out, ch)) :
    ch = true := by
  induction order generalizing b with
  | nil =>
    simp only [rewriteLoop, Option.some.injEq, Prod.mk.injEq] at h
    exact h.2.symm
  | cons p rest ih =>
    obtain ⟨k, v⟩ := p
    simp only [rewriteLoop] at h
    cases hr : re.Compile (sprint v.source) with
    | none => simp [hr] at h
    | some r =>
      rw [hr] at h
      by_cases hm : re.Match r b = true
      · simp only [hm, if_true] at h
        exact ih _ h
      · simp only [hm] at h
        exact ih _ h

theorem rewriteLoop_unchanged (re : RegexpLib) (order : List (String × Item)) (b : Bytes)
    (c0 : Bool) (out : Bytes) (h : rewriteLoop re order b c0 = some (out, false)) :
    out = b := by
  induction order generalizing b c0 with
  | nil =>
    simp only [rewriteLoop, Option.some.injEq, Prod.mk.injEq] at h
    exact h.1.symm
  | cons p rest ih =>
    obtain ⟨k, v⟩ := p
    simp only [rewriteLoop] at h
    cases hr : re.Compile (sprint v.source) with
    | none => simp [hr] at h
    | some r =>
      rw [hr] at h
      by_cases hm : re.Match r b = true
      · simp only [hm, if_true] at h
        have := rewriteLoop_flag_true re rest _ out false h
        simp at this
      · simp only [hm] at h
        exact ih _ _ h

theorem rewriteBody_changed_iff_aux (re : RegexpLib) (order : List (String × Item))
    (b out : Bytes) (ch : Bool) (h : rewriteBody re order b = some (out, ch)) :
    ch = true ↔
      ∃ i p cur c r, order[i]? = some p ∧
        rewriteBody re (order.take i) b = some (cur, c) ∧
        re.Compile (sprint p.2.source) = some r ∧ re.Match r cur = true := by
  induction order generalizing b with
  | nil =>
    simp only [rewriteBody, rewriteLoop, Option.some.injEq, Prod.mk.injEq] at h
    simp [← h.2]
  | cons p rest ih =>
    obtain ⟨k, v⟩ := p
    simp only [rewriteBody, rewriteLoop] at h
    cases hr : re.Compile (sprint v.source) with
    | none => simp [hr] at h
    | some r =>
      rw [hr] at h
      by_cases hm : re.Match r b = true
      · simp only [hm, if_true] at h
        have hch := rewriteLoop_flag_true re rest _ out ch h
        constructor
        · intro _
          exact ⟨0, (k, v), b, false, r, by simp, rfl, hr, hm⟩
        · intro _
          exact hch
      · simp only [hm] at h
        have hstep : ∀ i, rewriteBody re ((k, v) :: rest.take i) b
            = rewriteBody re (rest.take i) b := by
          intro i
          simp [rewriteBody, rewriteLoop, hr, hm]
        rw [ih b h]
        constructor
        · rintro ⟨i, p, cur, c, r', hi, hloop, hcomp, hmatch⟩
          refine ⟨i + 1, p, cur, c, r', by simpa using hi, ?_, hcomp, hmatch⟩
          rw [List.take_succ_cons, hstep]
          exact hloop
        · rintro ⟨i, p, cur, c, r', hi, hloop, hcomp, hmatch⟩
          cases i with
          | zero =>
            simp only [List.getElem?_cons_zero, Option.some.injEq] at hi
            subst hi
            simp only [List.take_zero, rewriteBody, rewriteLoop, Option.some.injEq,
              Prod.mk.injEq] at hloop
            rw [hr] at hcomp
            have hrr : r = r' := Option.some.inj hcomp
            subst hrr
            rw [← hloop.1] at hmatch
            exact absurd hmatch hm
          | succ j =>
            rw [List.take_succ_cons, hstep] at hloop
            exact ⟨j, p, cur, c, r', by simpa using hi, hloop, hcomp, hmatch⟩

/-- C9: for a rule set whose patterns compile, `rewriteBody` returns, its flag is true
exactly when some rule matched the bytes current when it was applied (the output of the
rules visited before it), and when the flag is false the returned bytes are the input. -/
theorem rewriteBody_changed_iff_matched (re : RegexpLib) (order : List (String × Item))
    (b : Bytes) (hc : ∀ p ∈ order, (re.Compile (sprint p.2.source)).isSome = true) :
    ∃ out ch, rewriteBody re order b = some (out, ch) ∧
      (ch = true ↔
        ∃ i p cur c r, order[i]? = some p ∧
          rewriteBody re (order.take i) b = some (cur, c) ∧
          re.Compile (sprint p.2.source) = some r ∧ re.Match r cur = true) ∧
      (ch = false → out = b) := by
  obtain ⟨res, hres⟩ := rewriteLoop_some re order hc b false
  obtain ⟨out, ch⟩ := res
  refine ⟨out, ch, hres, rewriteBody_changed_iff_aux re order b out ch hres, ?_⟩
  intro hfalse
  subst hfalse
  exact rewriteLoop_unchanged re order b false out hres

theorem rewriteBody_changed_iff_matched_witness :
    (∀ p ∈ [ruleBC, ruleAB], (litRegexp.Compile (sprint p.2.source)).isSome = true) ∧
    ∃ out ch, rewriteBody litRegexp [ruleBC, ruleAB] (stringBytes "a") = some (out, ch) ∧
      (ch = true ↔
        ∃ i p cur c r, [ruleBC, ruleAB][i]? = some p ∧
          rewriteBody litRegexp ([ruleBC, ruleAB].take i) (stringBytes "a") = some (cur, c) ∧
          litRegexp.Compile (sprint p.2.source) = some r ∧
          litRegexp.Match r cur = true) ∧
      (ch = false → out = stringBytes "a") :=
  ⟨by decide,
    rewriteBody_changed_iff_matched litRegexp [ruleBC, ruleAB] (stringBytes "a") (by decide)⟩

/-! ## The rule engine: the order of application -/

theorem litReplace_of_not_litMatch (pat repl b : Bytes) (h : litMatch pat b = false) :
    litReplace pat repl 0 b = b := by
  induction b with
  | nil => rfl
  | cons c cs ih =>
    simp only [litMatch, Bool.or_eq_false_iff] at h
    simp [litReplace, h.1, ih h.2]

theorem rewriteLoop_eq_foldRules (re : RegexpLib) (order : List (String × Item))
    (hc : ∀ p ∈ order, (re.Compile (sprint p.2.source)).isSome = true)
    (hlaw : ∀ p ∈ order, ∀ r, re.Compile (sprint p.2.source) = some r →
      ∀ c, re.Match r c = false → re.ReplaceAll r c (stringBytes (sprint p.2.target)) = c)
    (b : Bytes) (c0 : Bool) :
    ∃ ch, rewriteLoop re order b c0 = some (foldRules re order b, ch) := by
  induction order generalizing b c0 with
  | nil => exact ⟨c0, rfl⟩
  | cons p rest ih =>
    obtain ⟨k, v⟩ := p
    have hrest : ∀ q ∈ rest, (re.Compile (sprint q.2.source)).isSome = true :=
      fun q hq => hc q (List.mem_cons_of_mem _ hq)
    have hlawrest : ∀ q ∈ rest, ∀ r, re.Compile (sprint q.2.source) = some r →
        ∀ c, re.Match r c = false →
          re.ReplaceAll r c (stringBytes (sprint q.2.target)) = c :=
      fun q hq => hlaw q (List.mem_cons_of_mem _ hq)
    obtain ⟨r, hr⟩ := Option.isSome_iff_exists.1 (hc (k, v) (List.mem_cons_self _ _))
    simp only [] at hr
    have hfold : foldRules re ((k, v) :: rest) b
        = foldRules re rest (re.ReplaceAll r b (stringBytes (sprint v.target))) := by
      simp [foldRules, applyRule, hr]
    simp only [rewriteLoop, hr, hfold]
    by_cases hm : re.Match r b = true
    · simpa [hm] using ih hrest hlawrest _ true
    · have hmf : re.Match r b = false := by simpa using hm
      have hsame := hlaw (k, v) (List.mem_cons_self _ _) r hr b hmf
      simp only [] at hsame
      rw [hsame]
      simpa [hm] using ih hrest hlawrest b c0

/-- C8, as stated, fails: the loop visits the two declared rules in the order `range`
yields them, and when that is rule2 before rule1 the input `a` gives `b`, while the fold
in declaration order gives `c`. -/
theorem rewriteBody_not_declaration_order :
    [ruleBC, ruleAB].Perm twoRuleConfig.items ∧
    rewriteBody litRegexp [ruleBC, ruleAB] (stringBytes "a") = some (stringBytes "b", true) ∧
    foldRules litRegexp twoRuleConfig.items (stringBytes "a") = stringBytes "c" :=
  ⟨by decide, rfl, rfl⟩

/-- C8, amended: `rewriteBody` applies every configured rule exactly once, in the order in
which `range` visits the entries of the map (some arrangement of the declared rules), each
rule on the output of the rules visited before it: when the patterns compile and
replace-all leaves bytes without a match as they are, the bytes returned are the left fold
of replace-all over the rules in visiting order.  When rule1 (`a` to `b`) is visited before
rule2 (`b` to `c`), the input `a` gives `c`. -/
theorem rewriteBody_eq_fold_in_visiting_order (re : RegexpLib) (cfg : Config)
    (order : List (String × Item)) (b : Bytes)
    (hvisit : order.Perm cfg.items)
    (hc : ∀ p ∈ order, (re.Compile (sprint p.2.source)).isSome = true)
    (hlaw : ∀ p ∈ order, ∀ r, re.Compile (sprint p.2.source) = some r →
      ∀ c, re.Match r c = false → re.ReplaceAll r c (stringBytes (sprint p.2.target)) = c) :
    (∀ p, order.countP (fun q => decide (q = p))
      = cfg.items.countP (fun q => decide (q = p))) ∧
    (∃ ch, rewriteBody re order b = some (foldRules re order b, ch)) ∧
    rewriteBody litRegexp [ruleAB, ruleBC] (stringBytes "a") = some (stringBytes "c", true) :=
  ⟨fun _ => hvisit.countP_eq _, rewriteLoop_eq_foldRules re order hc hlaw b false, rfl⟩

theorem rewriteBody_eq_fold_in_visiting_order_witness :
    [ruleBC, ruleAB].Perm twoRuleConfig.items ∧
    (∀ p ∈ [ruleBC, ruleAB], (litRegexp.Compile (sprint p.2.source)).isSome = true) ∧
    (∃ ch, rewriteBody litRegexp [ruleBC, ruleAB] (stringBytes "ab")
      = some (foldRules litRegexp [ruleBC, ruleAB] (stringBytes "ab"), ch)) ∧
    foldRules litRegexp [ruleBC, ruleAB] (stringBytes "ab") = stringBytes "bc" :=
  ⟨by decide, by decide,
    (rewriteBody_eq_fold_in_visiting_order litRegexp twoRuleConfig [ruleBC, ruleAB]
      (stringBytes "ab") (by decide) (by decide)
      (fun _ _ r _ c hm => litReplace_of_not_litMatch r _ c hm)).2.1,
    rfl⟩

/-! ## Pass-through -/

theorem rewriteLoop_no_match (re : RegexpLib) (order : List (String × Item)) (b : Bytes)
    (hno : ∀ p ∈ order, ∃ r, re.Compile (sprint p.2.source) = some r ∧ re.Match r b = false)
    (c0 : Bool) : rewriteLoop re order b c0 = some (b, c0) := by
  induction order with
  | nil => rfl
  | cons p rest ih =>
    obtain ⟨k, v⟩ := p
    obtain ⟨r, hr, hm⟩ := hno (k, v) (List.mem_cons_self _ _)
    simp only [] at hr
    simp only [rewriteLoop, hr, hm]
    exact ih (fun q hq => hno q (List.mem_cons_of_mem _ hq))

/-- C4, as stated, fails: the response is not flagged gzip and no rule's pattern matches
the body `hi` (the pattern `b` does not occur in it, the pattern `(` does not compile and
so matches nothing), yet `rewriteBody` does not return the input bytes, and the hook does
not return: `regexp.MustCompile` panics on `(`. -/
theorem rewriteBody_no_match_yet_panics :
    isGzipped plainResponse.Header = false ∧
    (∀ p ∈ [ruleBC, ruleBroken], ∀ r, litRegexp.Compile (sprint p.2.source) = some r →
      litRegexp.Match r plainResponse.Body = false) ∧
    rewriteBody litRegexp [ruleBC, ruleBroken] plainResponse.Body = none ∧
    modifyResponse storedGzip litRegexp exampleConfig [ruleBC, ruleBroken] plainResponse
      = none := by
  refine ⟨rfl, ?_, rfl, rfl⟩
  intro p hp r hr
  simp only [List.mem_cons, List.mem_singleton, List.not_mem_nil, or_false] at hp
  rcases hp with rfl | rfl
  · have hb : some (stringBytes "b") = some r := hr
    rw [← Option.some.inj hb]
    rfl
  · have hnone : (none : Option Bytes) = some r := hr
    exact absurd hnone (by simp)

/-- C4, amended: for a response that is not flagged gzip and a rule set in which every
pattern compiles and none matches the body, `rewriteBody` returns the input bytes with the
flag false, the hook installs a body identical to the incoming one, and the length header
and field are set to the byte count of that body. -/
theorem modifyResponse_pass_through (gz : GzipLib) (re : RegexpLib) (cfg : Config)
    (order : List (String × Item)) (resp : Response)
    (hplain : isGzipped resp.Header = false)
    (hno : ∀ p ∈ order, ∃ r, re.Compile (sprint p.2.source) = some r ∧
      re.Match r resp.Body = false) :
    rewriteBody re order resp.Body = some (resp.Body, false) ∧
    ∃ r, modifyResponse gz re cfg order resp = some { resp := r, err := none } ∧
      r.Body = resp.Body ∧
      r.Header "Content-Length" = some [Itoa resp.Body.length] ∧
      r.ContentLength = (resp.Body.length : Int) := by
  have hrw : rewriteBody re order resp.Body = some (resp.Body, false) :=
    rewriteLoop_no_match re order resp.Body hno false
  have hdec : decodedBody gz resp = resp.Body := by simp [decodedBody, hplain]
  have hfin : finalBody gz resp resp.Body false = resp.Body := by
    simp [finalBody, hplain, hdec]
  refine ⟨hrw, _, modifyResponse_of_rewrite gz re cfg order resp resp.Body false
    (by rw [hdec]; exact hrw), ?_, ?_, ?_⟩
  · exact hfin
  · simp [Header.Set, canonical_content_length, hfin]
  · simp [hfin]

theorem modifyResponse_pass_through_witness :
    isGzipped plainResponse.Header = false ∧
    rewriteBody litRegexp [ruleAB, ruleBC] plainResponse.Body
      = some (plainResponse.Body, false) ∧
    ∃ r, modifyResponse storedGzip litRegexp exampleConfig [ruleAB, ruleBC] plainResponse
        = some { resp := r, err := none } ∧
      r.Body = plainResponse.Body ∧
      r.Header "Content-Length" = some [Itoa plainResponse.Body.length] ∧
      r.ContentLength = (plainResponse.Body.length : Int) :=
  ⟨rfl,
    modifyResponse_pass_through storedGzip litRegexp exampleConfig [ruleAB, ruleBC]
      plainResponse rfl (by
        intro p hp
        simp only [List.mem_cons, List.mem_singleton, List.not_mem_nil, or_false] at hp
        rcases hp with rfl | rfl
        · exact ⟨stringBytes "a", rfl, rfl⟩
        · exact ⟨stringBytes "b", rfl, rfl⟩)⟩

/-! ## The trace header -/

/-- C6, as stated, fails: with a trace header named `Content-Length` the hook overwrites
the configured value `tagged` by the byte count when it sets the length header. -/
theorem modifyResponse_trace_header_overwritten :
    lengthNamedConfig.responseValue = "tagged" ∧
    (modifyResponse storedGzip litRegexp lengthNamedConfig [] plainResponse).map
      (fun r => r.resp.Header lengthNamedConfig.responseName) = some (some ["2"]) :=
  ⟨rfl, rfl⟩

/-- C6, amended: for every response, every rule set and every trace header whose canonical
name is not `Content-Length`, after the hook returns the headers bind the canonical form
of the trace header name to exactly the configured value, whatever the compression flag,
the outcome of decoding and the matches of the rules. -/
theorem modifyResponse_sets_trace_header (gz : GzipLib) (re : RegexpLib) (cfg : Config)
    (order : List (String × Item)) (resp : Response) (r : HookResult)
    (hname : CanonicalMIMEHeaderKey cfg.responseName ≠ "Content-Length")
    (h : modifyResponse gz re cfg order resp = some r) :
    r.resp.Header (CanonicalMIMEHeaderKey cfg.responseName) = some [cfg.responseValue] := by
  obtain ⟨d, changed, _, rfl⟩ := modifyResponse_some_inv gz re cfg order resp r h
  simp [Header.Set, canonical_content_length, hname]

theorem modifyResponse_sets_trace_header_witness :
    CanonicalMIMEHeaderKey exampleConfig.responseName ≠ "Content-Length" ∧
    modifyResponse storedGzip litRegexp exampleConfig [] plainResponse = some plainResult ∧
    plainResult.resp.Header (CanonicalMIMEHeaderKey exampleConfig.responseName)
      = some [exampleConfig.responseValue] :=
  ⟨by decide, rfl,
    modifyResponse_sets_trace_header storedGzip litRegexp exampleConfig [] plainResponse
      plainResult (by decide) rfl⟩

/-! ## The compression flag -/

/-- C7, as stated, fails: with a trace header `Content-Encoding: gzip` a response that came
in without the gzip flag leaves with it, while its body is the plain bytes. -/
theorem modifyResponse_flag_changed_by_trace_header :
    isGzipped plainResponse.Header = false ∧
    (modifyResponse storedGzip litRegexp encodingNamedConfig [] plainResponse).map
      (fun r => (isGzipped r.resp.Header, r.resp.Body)) = some (true, stringBytes "hi") :=
  ⟨rfl, rfl⟩

/-- C7, amended: for every response, every rule set and every trace header whose canonical
name is not `Content-Encoding`, `isGzipped` on the headers after the hook equals
`isGzipped` on the headers before it, and the hook compresses the outgoing body exactly
when that flag is true: the body is the gzip compression of the rewritten decoded bytes
when the flag is true and those bytes themselves when it is false. -/
theorem modifyResponse_keeps_compression_flag (gz : GzipLib) (re : RegexpLib) (cfg : Config)
    (order : List (String × Item)) (resp : Response) (r : HookResult)
    (hname : CanonicalMIMEHeaderKey cfg.responseName ≠ "Content-Encoding")
    (h : modifyResponse gz re cfg order resp = some r) :
    isGzipped r.resp.Header = isGzipped resp.Header ∧
    ∃ d ch, rewriteBody re order (decodedBody gz resp) = some (d, ch) ∧
      r.resp.Body =
        if isGzipped resp.Header then gz.Compress (if ch then d else decodedBody gz resp)
        else (if ch then d else decodedBody gz resp) := by
  obtain ⟨d, changed, hrw, rfl⟩ := modifyResponse_some_inv gz re cfg order resp r h
  refine ⟨?_, d, changed, hrw, rfl⟩
  have hne : ¬ ("Content-Encoding" = CanonicalMIMEHeaderKey cfg.responseName) :=
    fun e => hname e.symm
  simp [isGzipped, Header.Set, canonical_content_length, hne]

theorem modifyResponse_keeps_compression_flag_witness :
    CanonicalMIMEHeaderKey exampleConfig.responseName ≠ "Content-Encoding" ∧
    isGzipped plainResult.resp.Header = isGzipped plainResponse.Header ∧
    ∃ d ch, rewriteBody litRegexp [] (decodedBody storedGzip plainResponse) = some (d, ch) ∧
      plainResult.resp.Body =
        if isGzipped plainResponse.Header then
          storedGzip.Compress (if ch then d else decodedBody storedGzip plainResponse)
        else (if ch then d else decodedBody storedGzip plainResponse) :=
  ⟨by decide,
    modifyResponse_keeps_compression_flag storedGzip litRegexp exampleConfig []
      plainResponse plainResult (by decide) rfl⟩

/-! ## The decimal rendering of a length -/

theorem toDigitsCore_length_ge (b f n : Nat) (ds : List Char) :
    ds.length ≤ (Nat.toDigitsCore b f n ds).length := by
  induction f generalizing n ds with
  | zero => simp [Nat.toDigitsCore]
  | succ f ih =>
    simp only [Nat.toDigitsCore]
    split
    · simp
    · exact Nat.le_trans (by simp) (ih _ _)

theorem Itoa_eq_zero (n : Nat) (h : Itoa n = "0") : n = 0 := by
  by_cases hn : n < 10
  · interval_cases n <;> first | rfl | (exact absurd h (by decide))
  · exfalso
    have hlen : (Nat.toDigits 10 n).length = 1 := by
      have : (Nat.toDigits 10 n).asString = "0" := h
      have h2 := congrArg String.length this
      simpa using h2
    obtain ⟨m, rfl⟩ : ∃ m, n = m + 1 := ⟨n - 1, by omega⟩
    have hdiv : (m + 1) / 10 ≠ 0 := by omega
    simp only [Nat.toDigits, Nat.toDigitsCore, hdiv, if_false] at hlen
    have hge := toDigitsCore_length_ge 10 (m + 1) ((m + 1) / 10)
      [Nat.digitChar ((m + 1) % 10)]
    simp only [Nat.toDigitsCore] at hge
    split at hge
    · rename_i h0
      simp [h0] at hlen
    · rename_i h0
      simp only [h0, if_false] at hlen
      have h3 := toDigitsCore_length_ge 10 m ((m + 1) / 10 / 10)
        [Nat.digitChar ((m + 1) / 10 % 10), Nat.digitChar ((m + 1) % 10)]
      simp only [List.length_cons, List.length_nil] at h3
      omega

/-! ## The stored-block fragment reads what it writes -/

theorem le16_toNat (k : Nat) (hk : k < 65536) :
    (UInt8.ofNat (k % 256)).toNat + 256 * (UInt8.ofNat (k / 256 % 256)).toNat = k := by
  have h1 : (UInt8.ofNat (k % 256)).toNat = k % 256 :=
    UInt8.toNat_ofNat_of_lt (Nat.mod_lt _ (by decide))
  have h2 : (UInt8.ofNat (k / 256 % 256)).toNat = k / 256 % 256 :=
    UInt8.toNat_ofNat_of_lt (Nat.mod_lt _ (by decide))
  rw [h1, h2]
  omega

theorem inflateStored_final (f2 : Nat) (tail acc : Bytes) :
    inflateStored (f2 + 1) ([0x01, 0x00, 0x00, 0xff, 0xff] ++ tail) acc = (acc, some tail) := by
  simp [inflateStored]

theorem inflateStored_block (f2 k : Nat) (rest acc : Bytes) (hk : k < 65536)
    (hlen : k ≤ rest.length) :
    inflateStored (f2 + 1) ([0x00] ++ le16 k ++ le16 (65535 - k) ++ rest) acc
      = inflateStored f2 (rest.drop k) (acc ++ rest.take k) := by
  have e1 := le16_toNat k hk
  have e2 := le16_toNat (65535 - k) (by omega)
  simp only [le16, List.cons_append, List.nil_append, inflateStored]
  simp only [e1, e2]
  have h0 : UInt8.toNat 0 = 0 := rfl
  have hsum : k + (65535 - k) = 65535 := by omega
  have hnot : ¬ rest.length < k := by omega
  have happ : ([] : Bytes).append rest = rest := rfl
  simp [h0, hsum, hnot, happ]

theorem inflateStored_storedBlocks (fuel : Nat) (b acc tail : Bytes) (fuel2 : Nat)
    (hb : b.length ≤ fuel) (hf : fuel < fuel2) :
    inflateStored fuel2 (storedBlocks fuel b ++ tail) acc = (acc ++ b, some tail) := by
  induction fuel generalizing b acc fuel2 with
  | zero =>
    obtain ⟨f2, rfl⟩ : ∃ f2, fuel2 = f2 + 1 := ⟨fuel2 - 1, by omega⟩
    have hnil : b = [] := List.length_eq_zero.1 (by omega)
    subst hnil
    simp only [storedBlocks, List.append_nil]
    exact inflateStored_final f2 tail acc
  | succ fuel ih =>
    obtain ⟨f2, rfl⟩ : ∃ f2, fuel2 = f2 + 1 := ⟨fuel2 - 1, by omega⟩
    by_cases hnil : b = []
    · subst hnil
      simp only [storedBlocks, List.isEmpty_nil, if_true, List.append_nil]
      exact inflateStored_final f2 tail acc
    · have hpos : 0 < b.length := List.length_pos.2 hnil
      have hemp : b.isEmpty = false := by simpa using hnil
      have hk : min b.length 65535 < 65536 := by omega
      have hk1 : 0 < min b.length 65535 := by omega
      have hkle : min b.length 65535 ≤ b.length := Nat.min_le_left _ _
      simp only [storedBlocks, hemp, Bool.false_eq_true, if_false, List.append_assoc]
      have hstep := inflateStored_block f2 (min b.length 65535)
        (b.take (min b.length 65535) ++
          (storedBlocks fuel (b.drop (min b.length 65535)) ++ tail)) acc hk
        (by simp [List.length_take])
      simp only [List.append_assoc] at hstep
      rw [hstep]
      have htake : (b.take (min b.length 65535) ++
          (storedBlocks fuel (b.drop (min b.length 65535)) ++ tail)).take
            (min b.length 65535) = b.take (min b.length 65535) := by
        rw [List.take_append_of_le_length (by simp [List.length_take])]
        simp [List.take_take]
      have hdrop : (b.take (min b.length 65535) ++
          (storedBlocks fuel (b.drop (min b.length 65535)) ++ tail)).drop
            (min b.length 65535) = storedBlocks fuel (b.drop (min b.length 65535)) ++ tail := by
        rw [List.drop_append_of_le_length (by simp [List.length_take])]
        simp [List.drop_take]
      rw [htake, hdrop, ih (b.drop (min b.length 65535)) _ f2
        (by simp [List.length_drop]; omega) (by omega)]
      simp [List.append_assoc, List.take_append_drop]

theorem storedBlocks_length_ge (fuel : Nat) (b : Bytes) (hb : b.length ≤ fuel) :
    b.length ≤ (storedBlocks fuel b).length := by
  induction fuel generalizing b with
  | zero => simp [storedBlocks]; omega
  | succ fuel ih =>
    by_cases hnil : b = []
    · subst hnil
      simp
    · have hpos : 0 < b.length := List.length_pos.2 hnil
      have hemp : b.isEmpty = false := by simpa using hnil
      have hrec := ih (b.drop (min b.length 65535)) (by simp [List.length_drop]; omega)
      simp only [storedBlocks, hemp, Bool.false_eq_true, if_false, List.length_append,
        List.length_take]
      simp only [List.length_drop] at hrec
      omega

theorem storedGzip_round_trip (x : Bytes) :
    ∃ rd, storedGzip.NewReader (storedGzip.Compress x) = some rd ∧
      storedGzip.ReadAll rd = (x, false) := by
  refine ⟨storedBlocks x.length x ++ (le32 (crc32 x) ++ le32 (x.length % 4294967296)),
    ?_, ?_⟩
  · simp [storedGzip, storedCompress, gzipHeader, storedNewReader]
  · show storedReadAll _ = _
    unfold storedReadAll
    have hlen := storedBlocks_length_ge x.length x (Nat.le_refl _)
    rw [inflateStored_storedBlocks x.length x [] _ _ (Nat.le_refl _)
      (by simp only [List.length_append]; omega)]
    simp

theorem storedCompress_ne_nil (y : Bytes) : storedGzip.Compress y ≠ [] := by
  simp [storedGzip, storedCompress, gzipHeader]

theorem zippedReadAll_of_reader (gz : GzipLib) (s x : Bytes) (e : Bool)
    (h : ∃ rd, gz.NewReader s = some rd ∧ gz.ReadAll rd = (x, e)) :
    zippedReadAll gz s = (x, e) := by
  obtain ⟨rd, hnew, hread⟩ := h
  simp only [zippedReadAll, hnew]
  exact hread

/-! ## Gzip bodies -/

/-- C3: for a response flagged gzip whose body is a gzip stream of `x` (the reader of the
library opens it and reads `x` to the end without error) and an empty rule set, the hook
returns; given the law of the library that its reader reads back what its writer wrote,
the body the hook installs is a gzip stream whose decompression is `x`, namely the
compression of `x`, and the length header and field are the byte count of that compressed
body. -/
theorem modifyResponse_gzip_round_trip (gz : GzipLib) (re : RegexpLib) (cfg : Config)
    (resp : Response) (x : Bytes)
    (hflag : isGzipped resp.Header = true)
    (hbody : ∃ rd, gz.NewReader resp.Body = some rd ∧ gz.ReadAll rd = (x, false))
    (hlib : ∀ y, ∃ rd, gz.NewReader (gz.Compress y) = some rd ∧ gz.ReadAll rd = (y, false)) :
    ∃ r, modifyResponse gz re cfg [] resp = some { resp := r, err := none } ∧
      r.Body = gz.Compress x ∧
      (∃ rd, gz.NewReader r.Body = some rd ∧ gz.ReadAll rd = (x, false)) ∧
      r.Header "Content-Length" = some [Itoa r.Body.length] ∧
      r.ContentLength = (r.Body.length : Int) := by
  have hread : zippedReadAll gz resp.Body = (x, false) :=
    zippedReadAll_of_reader gz resp.Body x false hbody
  have hdec : decodedBody gz resp = x := by simp [decodedBody, hflag, hread]
  have hrw : rewriteBody re [] (decodedBody gz resp) = some (x, false) := by
    rw [hdec]
    rfl
  have hfin : finalBody gz resp x false = gz.Compress x := by
    simp [finalBody, hflag, hdec]
  refine ⟨_, modifyResponse_of_rewrite gz re cfg [] resp x false hrw, ?_, ?_, ?_, ?_⟩
  · exact hfin
  · simp only [hfin]
    exact hlib x
  · simp [Header.Set, canonical_content_length]
  · rfl

theorem modifyResponse_gzip_round_trip_witness :
    isGzipped gzipResponse.Header = true ∧
    (∃ rd, storedGzip.NewReader gzipResponse.Body = some rd ∧
      storedGzip.ReadAll rd = (stringBytes "hi", false)) ∧
    (∀ y, ∃ rd, storedGzip.NewReader (storedGzip.Compress y) = some rd ∧
      storedGzip.ReadAll rd = (y, false)) ∧
    ∃ r, modifyResponse storedGzip litRegexp exampleConfig [] gzipResponse
        = some { resp := r, err := none } ∧
      r.Body = storedGzip.Compress (stringBytes "hi") ∧
      (∃ rd, storedGzip.NewReader r.Body = some rd ∧
        storedGzip.ReadAll rd = (stringBytes "hi", false)) ∧
      r.Header "Content-Length" = some [Itoa r.Body.length] ∧
      r.ContentLength = (r.Body.length : Int) :=
  ⟨rfl, storedGzip_round_trip (stringBytes "hi"), storedGzip_round_trip,
    modifyResponse_gzip_round_trip storedGzip litRegexp exampleConfig gzipResponse
      (stringBytes "hi") rfl (storedGzip_round_trip (stringBytes "hi"))
      storedGzip_round_trip⟩

/-- C2, as stated, fails: for a response flagged gzip whose body is not a gzip stream the
reader rejects the header, and the hook then installs the gzip compression of the empty
byte sequence, which is not empty, with a length header that is not `0` (23 bytes and `23`
with the writer of the fragment). -/
theorem modifyResponse_malformed_gzip_body_not_empty :
    isGzipped brokenGzipResponse.Header = true ∧
    storedGzip.NewReader brokenGzipResponse.Body = none ∧
    (modifyResponse storedGzip litRegexp exampleConfig [] brokenGzipResponse).map
      (fun r => (r.resp.Body, r.resp.Header "Content-Length"))
      = some (storedGzip.Compress [], some ["23"]) ∧
    storedGzip.Compress [] ≠ [] ∧
    (storedGzip.Compress []).length = 23 :=
  ⟨rfl, rfl, by decide, by decide, by decide⟩

/-- C2, amended: for a response flagged gzip whose body is not a valid gzip stream (the
reader rejects the header and nothing is read, or the read ends in an error after the
bytes `got`) and a rule set whose patterns compile, the hook returns the nil error and the
resulting body is the gzip compression of the rewritten `got`; a gzip stream is never
empty, so the body is not empty, and the length header is the byte count of the body,
which is not `0`. -/
theorem modifyResponse_malformed_gzip (gz : GzipLib) (re : RegexpLib) (cfg : Config)
    (order : List (String × Item)) (resp : Response) (got : Bytes)
    (hflag : isGzipped resp.Header = true)
    (hbad : (gz.NewReader resp.Body = none ∧ got = []) ∨
      ∃ rd, gz.NewReader resp.Body = some rd ∧ gz.ReadAll rd = (got, true))
    (hc : ∀ p ∈ order, (re.Compile (sprint p.2.source)).isSome = true)
    (hgz : ∀ y, gz.Compress y ≠ []) :
    ∃ r d ch, modifyResponse gz re cfg order resp = some { resp := r, err := none } ∧
      rewriteBody re order got = some (d, ch) ∧
      r.Body = gz.Compress (if ch then d else got) ∧
      r.Body ≠ [] ∧
      r.Header "Content-Length" = some [Itoa r.Body.length] ∧
      r.Header "Content-Length" ≠ some ["0"] := by
  have hread : zippedReadAll gz resp.Body = (got, true) := by
    rcases hbad with ⟨hnone, hgot⟩ | hrd
    · simp [zippedReadAll, hnone, hgot]
    · exact zippedReadAll_of_reader gz resp.Body got true hrd
  have hdec : decodedBody gz resp = got := by simp [decodedBody, hflag, hread]
  obtain ⟨out, hout⟩ := rewriteLoop_some re order hc got false
  obtain ⟨d, ch⟩ := out
  have hrw : rewriteBody re order (decodedBody gz resp) = some (d, ch) := by
    rw [hdec]
    exact hout
  have hfin : finalBody gz resp d ch = gz.Compress (if ch then d else got) := by
    simp [finalBody, hflag, hdec]
  have hne : finalBody gz resp d ch ≠ [] := by
    rw [hfin]
    exact hgz _
  refine ⟨_, d, ch, modifyResponse_of_rewrite gz re cfg order resp d ch hrw, hout, hfin,
    hne, ?_, ?_⟩
  · simp [Header.Set, canonical_content_length]
  · intro hzero
    have hset : Header.Set (Header.Set resp.Header cfg.responseName cfg.responseValue)
        "Content-Length" (Itoa (finalBody gz resp d ch).length) "Content-Length"
        = some [Itoa (finalBody gz resp d ch).length] := by
      simp [Header.Set, canonical_content_length]
    have hz : some [Itoa (finalBody gz resp d ch).length] = some ["0"] :=
      hset.symm.trans hzero
    have hstr : Itoa (finalBody gz resp d ch).length = "0" := by
      simpa using hz
    exact hne (List.length_eq_zero.1 (Itoa_eq_zero _ hstr))

theorem modifyResponse_malformed_gzip_witness :
    isGzipped brokenGzipResponse.Header = true ∧
    ((storedGzip.NewReader brokenGzipResponse.Body = none ∧ ([] : Bytes) = []) ∨
      ∃ rd, storedGzip.NewReader brokenGzipResponse.Body = some rd ∧
        storedGzip.ReadAll rd = ([], true)) ∧
    (∀ p ∈ [ruleAB], (litRegexp.Compile (sprint p.2.source)).isSome = true) ∧
    (∀ y, storedGzip.Compress y ≠ []) ∧
    ∃ r d ch, modifyResponse storedGzip litRegexp exampleConfig [ruleAB] brokenGzipResponse
        = some { resp := r, err := none } ∧
      rewriteBody litRegexp [ruleAB] [] = some (d, ch) ∧
      r.Body = storedGzip.Compress (if ch then d else []) ∧
      r.Body ≠ [] ∧
      r.Header "Content-Length" = some [Itoa r.Body.length] ∧
      r.Header "Content-Length" ≠ some ["0"] :=
  ⟨rfl, Or.inl ⟨rfl, rfl⟩, by decide, storedCompress_ne_nil,
    modifyResponse_malformed_gzip storedGzip litRegexp exampleConfig [ruleAB]
      brokenGzipResponse [] rfl (Or.inl ⟨rfl, rfl⟩) (by decide) storedCompress_ne_nil⟩

end ReverseProxy
